import Mathlib

/-!
Verification development for the genexomics-pipeline repository.

The repository consists of three straight-line command-line tools:
  * `bin/make_quilt_from_s3.py`  — builds a Quilt package manifest from S3 keys,
  * `bin/metadata_integrator.py` — merges Benchling/Smartsheet metadata into a
    package's metadata mapping and pushes it,
  * `bin/s3_uploader.py`         — uploads a file or directory tree to S3.

Python dictionaries are embedded as insertion-ordered association lists with
unique keys (`aset` replaces in place, mirroring `d[k] = v`); Python strings
appearing as paths are embedded as `List Char` so that character-level
operations (`str.replace` of the one-character pattern `"\\"`, `str.lstrip`,
`str.rstrip`) can be reasoned about directly; JSON values are embedded as the
inductive `JVal`.  External effects (registry browse, set-metadata, push,
per-file upload calls) are recorded as explicit effect traces.
-/

set_option autoImplicit false

namespace Genexomics

/-- JSON-like values appearing in package metadata and API payloads. -/
inductive JVal where
  | null
  | bool (b : Bool)
  | num (n : Int)
  | str (s : String)
  | arr (xs : List JVal)
  | obj (o : List (String × JVal))

/-- Python `dict` with `JVal` values, as an insertion-ordered association list. -/
abbrev Dict := List (String × JVal)

/-- Lookup in an association list: Python `d.get(k)`. -/
def aget {α : Type} : List (String × α) → String → Option α
  | [], _ => none
  | (k', v) :: t, k => if k' = k then some v else aget t k

/-- Store into an association list: Python `d[k] = v` (replace in place, else append). -/
def aset {α : Type} : List (String × α) → String → α → List (String × α)
  | [], k, v => [(k, v)]
  | (k', v') :: t, k, v => if k' = k then (k, v) :: t else (k', v') :: aset t k v

/-- Python `d.update(e)`: store every entry of `e` into `d`, left to right. -/
def aupdate {α : Type} (d e : List (String × α)) : List (String × α) :=
  e.foldl (fun acc kv => aset acc kv.1 kv.2) d

/-- The keys of an association list, in order. -/
def keysOf {α : Type} (m : List (String × α)) : List String :=
  m.map Prod.fst

theorem aget_aset_self {α : Type} (m : List (String × α)) (k : String) (v : α) :
    aget (aset m k v) k = some v := by
  induction m with
  | nil => simp [aset, aget]
  | cons hd t ih =>
    obtain ⟨k', v'⟩ := hd
    by_cases h : k' = k
    · simp [aset, h, aget]
    · simp [aset, h, aget, ih]

theorem aget_aset_ne {α : Type} (m : List (String × α)) (k' k : String) (v : α)
    (h : k' ≠ k) : aget (aset m k' v) k = aget m k := by
  induction m with
  | nil => simp [aset, aget, h]
  | cons hd t ih =>
    obtain ⟨k₀, v₀⟩ := hd
    by_cases h0 : k₀ = k'
    · subst h0
      simp [aset, aget, h]
    · by_cases h1 : k₀ = k
      · subst h1
        simp [aset, h0, aget]
      · rw [aset, if_neg h0, aget, if_neg h1, aget, if_neg h1]
        exact ih

theorem mem_keysOf_aset {α : Type} (m : List (String × α)) (k a : String) (v : α) :
    a ∈ keysOf (aset m k v) ↔ a = k ∨ a ∈ keysOf m := by
  induction m with
  | nil => simp [aset, keysOf]
  | cons hd t ih =>
    obtain ⟨k₀, v₀⟩ := hd
    by_cases h0 : k₀ = k
    · subst h0
      simp [aset, keysOf]
    · simp [aset, h0, keysOf] at ih ⊢
      tauto

theorem nodup_keysOf_aset {α : Type} (m : List (String × α)) (k : String) (v : α)
    (h : (keysOf m).Nodup) : (keysOf (aset m k v)).Nodup := by
  induction m with
  | nil => simp [aset, keysOf]
  | cons hd t ih =>
    obtain ⟨k₀, v₀⟩ := hd
    rw [keysOf, List.map_cons, List.nodup_cons] at h
    by_cases h0 : k₀ = k
    · subst h0
      simpa [aset, keysOf, List.nodup_cons] using h
    · rw [aset, if_neg h0, keysOf, List.map_cons, List.nodup_cons]
      refine ⟨fun hmem => ?_, ih h.2⟩
      rcases (mem_keysOf_aset t k k₀ v).mp hmem with h1 | h1
      · exact h0 h1
      · exact h.1 h1

theorem mem_aset {α : Type} (m : List (String × α)) (k : String) (v : α)
    (e : String × α) (h : e ∈ aset m k v) : e = (k, v) ∨ e ∈ m := by
  induction m with
  | nil => simpa [aset] using h
  | cons hd t ih =>
    obtain ⟨k₀, v₀⟩ := hd
    by_cases h0 : k₀ = k
    · subst h0
      simp [aset] at h
      tauto
    · simp [aset, h0] at h
      rcases h with h | h
      · right; simp [h]
      · rcases ih h with h1 | h1
        · left; exact h1
        · right; simp [h1]

/-! ## `bin/s3_uploader.py`

Paths and keys are embedded as `List Char` (Python `str` is a character
sequence).  `str.replace("\\", "/")` with its one-character pattern is the
character map `normChar`; `str.lstrip("/")` / `str.rstrip("/")` drop the
slash runs at the corresponding end. -/

/-- One step of `rel.replace("\\", "/")`: a single backslash character maps to a slash. -/
def normChar (c : Char) : Char :=
  if c = '\\' then '/' else c

/-- Python `s.lstrip("/")` on the character list. -/
def lstripSlash (l : List Char) : List Char :=
  l.dropWhile (fun c => c = '/')

/-- Python `s.rstrip("/")` on the character list. -/
def rstripSlash (l : List Char) : List Char :=
  (l.reverse.dropWhile (fun c => c = '/')).reverse

/-- Embeds `_normalize_prefix` of `bin/s3_uploader.py`: `None` and the empty
string (the falsy prefixes) become empty, otherwise leading and trailing
slashes are stripped. -/
def normalizePfx : Option (List Char) → List Char
  | none => []
  | some s => if s = [] then [] else rstripSlash (lstripSlash s)

/-- Embeds `_make_s3_key` of `bin/s3_uploader.py`: backslashes are replaced
by slashes, leading slashes stripped, and the key is placed under the
(already-normalized) prefix when the prefix is non-empty. -/
def makeS3Key (pfx rel : List Char) : List Char :=
  let rp := lstripSlash (rel.map normChar)
  if pfx = [] then rp else pfx ++ '/' :: rp

/-- `os.path.join` / `os.path.relpath` glue: path components joined with the
platform separator character. -/
def joinSep (sep : Char) : List (List Char) → List Char
  | [] => []
  | [c] => c
  | c :: cs => c ++ sep :: joinSep sep cs

/-- The input path handed to `upload_path_to_s3`, as the filesystem presents
it to the source's `os.path.isfile` / `os.path.isdir` / `os.walk` calls:
either an existing file (absolute path components), an existing directory
(the walk's files, each as path components relative to the directory root),
or a missing path. -/
inductive PathInput where
  | file (comps : List (List Char))
  | dir (relFiles : List (List (List Char)))
  | missing

/-- Embeds `upload_path_to_s3` of `bin/s3_uploader.py`.  Returns the list of
uploaded object keys together with the number of `upload_file` calls issued;
a missing path raises `ValueError`.  The directory branch mirrors the
source's walk loop with a fold, appending one key and one upload call per
file. -/
def upload_path_to_s3 (sep : Char) (pfx : Option (List Char)) (p : PathInput) :
    Except String (List (List Char) × Nat) :=
  let pfxClean := normalizePfx pfx
  match p with
  | .file comps =>
      .ok ([makeS3Key pfxClean (comps.getLastD [])], 1)
  | .dir relFiles =>
      .ok (relFiles.foldl
        (fun acc f => (acc.1 ++ [makeS3Key pfxClean (joinSep sep f)], acc.2 + 1))
        ([], 0))
  | .missing => .error "Path does not exist or is not a file/directory"

/-- Modelled from the spec: the key the spec demands for a file of a
directory upload — the file's path relative to the input root joined with
forward slashes, placed under the normalized prefix when one is configured. -/
def specRelativeKey (pfxClean : List Char) (f : List (List Char)) : List Char :=
  if pfxClean = [] then joinSep '/' f else pfxClean ++ '/' :: joinSep '/' f

/-- One bucket entry of the YAML configuration, before normalization:
the `Bucket` value and the optional `Prefix` value (absent or empty
collapses to the falsy case, as in `bucket_cfg.get("Prefix", "") or ""`). -/
structure BucketCfg where
  bucket : String
  pfxOpt : Option (List Char)

/-- Embeds the bucket-object construction in `S3BucketConfig.__init__` of
`bin/s3_uploader.py`: the stored object carries the `Bucket` value and the
normalized prefix. -/
def mkBucketObj (c : BucketCfg) : String × List Char :=
  (c.bucket, normalizePfx c.pfxOpt)

theorem head?_dropWhileSlash (l : List Char) :
    (l.dropWhile (fun c => c = '/')).head? ≠ some '/' := by
  induction l with
  | nil => simp
  | cons c t ih =>
    by_cases h : c = '/'
    · simpa [List.dropWhile_cons, h] using ih
    · simp [List.dropWhile_cons, h]

theorem dropWhileSlash_isSuffix (l : List Char) :
    ∃ u, u ++ l.dropWhile (fun c => c = '/') = l := by
  induction l with
  | nil => exact ⟨[], rfl⟩
  | cons c t ih =>
    by_cases h : c = '/'
    · obtain ⟨u, hu⟩ := ih
      exact ⟨c :: u, by simp [List.dropWhile_cons, h, hu]⟩
    · exact ⟨[], by simp [List.dropWhile_cons, h]⟩

theorem rstripSlash_isPrefix (l : List Char) :
    ∃ u, rstripSlash l ++ u = l := by
  obtain ⟨u, hu⟩ := dropWhileSlash_isSuffix l.reverse
  refine ⟨u.reverse, ?_⟩
  have := congrArg List.reverse hu
  simpa [rstripSlash, List.reverse_append] using this

theorem getLast?_rstripSlash (l : List Char) :
    (rstripSlash l).getLast? ≠ some '/' := by
  rw [rstripSlash, List.getLast?_reverse]
  exact head?_dropWhileSlash l.reverse

theorem head?_rstripSlash_of (l : List Char) (h : l.head? ≠ some '/') :
    (rstripSlash l).head? ≠ some '/' := by
  obtain ⟨u, hu⟩ := rstripSlash_isPrefix l
  cases hr : rstripSlash l with
  | nil => simp
  | cons c t =>
    rw [hr] at hu
    intro hc
    simp at hc
    subst hc
    apply h
    rw [← hu]
    simp

/-- C9 core property of the source's prefix normalization. -/
theorem normalizePfx_head_last (p : Option (List Char)) :
    (normalizePfx p).head? ≠ some '/' ∧ (normalizePfx p).getLast? ≠ some '/' := by
  match p with
  | none => simp [normalizePfx]
  | some s =>
    by_cases hs : s = []
    · simp [normalizePfx, hs]
    · rw [normalizePfx, if_neg hs]
      exact ⟨head?_rstripSlash_of _ (head?_dropWhileSlash s), getLast?_rstripSlash _⟩

theorem map_normChar_id (comp : List Char) (h : ∀ c ∈ comp, c ≠ '\\') :
    comp.map normChar = comp := by
  induction comp with
  | nil => rfl
  | cons c t ih =>
    simp only [List.map_cons]
    rw [normChar, if_neg (h c (by simp)), ih (fun c' hc' => h c' (by simp [hc']))]

theorem map_normChar_joinSep (sep : Char) (hsep : sep = '/' ∨ sep = '\\')
    (f : List (List Char)) (h : ∀ comp ∈ f, ∀ c ∈ comp, c ≠ '/' ∧ c ≠ '\\') :
    (joinSep sep f).map normChar = joinSep '/' f := by
  have hns : normChar sep = '/' := by
    rcases hsep with h | h <;> simp [h, normChar]
  induction f with
  | nil => rfl
  | cons c cs ih =>
    cases cs with
    | nil =>
      simp only [joinSep]
      exact map_normChar_id c (fun ch hc => (h c (by simp) ch hc).2)
    | cons c' cs' =>
      rw [joinSep, List.map_append, List.map_cons, hns,
        map_normChar_id c (fun ch hc => (h c (by simp) ch hc).2),
        ih (fun comp hcomp => h comp (by simp [hcomp]))]
      · rfl
      · simp

theorem lstripSlash_joinSlash (f : List (List Char)) (hne : f ≠ [])
    (h : ∀ comp ∈ f, comp ≠ [] ∧ ∀ c ∈ comp, c ≠ '/' ∧ c ≠ '\\') :
    lstripSlash (joinSep '/' f) = joinSep '/' f := by
  obtain ⟨comp, rest, rfl⟩ : ∃ comp rest, f = comp :: rest := by
    cases f with
    | nil => exact absurd rfl hne
    | cons a b => exact ⟨a, b, rfl⟩
  obtain ⟨ch, ct, rfl⟩ : ∃ ch ct, comp = ch :: ct := by
    rcases h comp (by simp) with ⟨hc, -⟩
    cases comp with
    | nil => exact absurd rfl hc
    | cons a b => exact ⟨a, b, rfl⟩
  have hch : ¬ ch = '/' := ((h (ch :: ct) (by simp)).2 ch (by simp)).1
  cases rest with
  | nil => simp [joinSep, lstripSlash, List.dropWhile_cons, hch]
  | cons r rs => simp [joinSep, lstripSlash, List.dropWhile_cons, hch]

theorem foldl_upload_keys (g : List (List Char) → List Char)
    (xs : List (List (List Char))) (acc : List (List Char)) (n : Nat) :
    xs.foldl (fun a f => (a.1 ++ [g f], a.2 + 1)) (acc, n)
      = (acc ++ xs.map g, n + xs.length) := by
  induction xs generalizing acc n with
  | nil => simp
  | cons x t ih =>
    rw [List.foldl_cons, ih]
    simp [Nat.add_comm, Nat.add_assoc, Nat.add_left_comm]

theorem makeS3Key_eq_specRelativeKey (pfxClean : List Char) (sep : Char)
    (hsep : sep = '/' ∨ sep = '\\') (f : List (List Char)) (hne : f ≠ [])
    (h : ∀ comp ∈ f, comp ≠ [] ∧ ∀ c ∈ comp, c ≠ '/' ∧ c ≠ '\\') :
    makeS3Key pfxClean (joinSep sep f) = specRelativeKey pfxClean f := by
  rw [makeS3Key, specRelativeKey,
    map_normChar_joinSep sep hsep f (fun comp hcomp => (h comp hcomp).2),
    show lstripSlash (joinSep '/' f) = joinSep '/' f from
      lstripSlash_joinSlash f hne h]

/-- C5: for a directory whose recursive walk yields `N` files (given as
component paths relative to the input root, with ordinary names: non-empty,
no separator characters), `upload_path_to_s3` issues exactly `N` upload
calls and returns the `N` keys, each equal to the file's relative path with
the platform separator normalized to forward slashes, placed under the
normalized prefix.  Holds for both separator conventions `/` and `\`. -/
theorem upload_dir_one_call_per_file (sep : Char) (pfx : Option (List Char))
    (relFiles : List (List (List Char)))
    (hsep : sep = '/' ∨ sep = '\\')
    (hf : ∀ f ∈ relFiles, f ≠ [] ∧ ∀ comp ∈ f, comp ≠ [] ∧ ∀ c ∈ comp, c ≠ '/' ∧ c ≠ '\\') :
    upload_path_to_s3 sep pfx (.dir relFiles)
      = .ok (relFiles.map (specRelativeKey (normalizePfx pfx)), relFiles.length) := by
  have hmap : relFiles.map (fun f => makeS3Key (normalizePfx pfx) (joinSep sep f))
      = relFiles.map (specRelativeKey (normalizePfx pfx)) := by
    induction relFiles with
    | nil => rfl
    | cons f t ih =>
      rw [List.map_cons, List.map_cons,
        makeS3Key_eq_specRelativeKey (normalizePfx pfx) sep hsep f (hf f (by simp)).1
          (hf f (by simp)).2,
        ih (fun f' hf' => hf f' (by simp [hf']))]
  simp only [upload_path_to_s3]
  rw [foldl_upload_keys (fun f => makeS3Key (normalizePfx pfx) (joinSep sep f)) relFiles [] 0]
  rw [List.nil_append, hmap, Nat.zero_add]

/-- C5 witness: a two-file directory under prefix `p` yields exactly two
upload calls with the expected forward-slash keys. -/
theorem upload_dir_one_call_per_file_witness :
    upload_path_to_s3 '/' (some ['p']) (.dir [[['a'], ['b']], [['c']]])
      = .ok ([['p', '/', 'a', '/', 'b'], ['p', '/', 'c']], 2) :=
  (upload_dir_one_call_per_file '/' (some ['p']) [[['a'], ['b']], [['c']]]
    (Or.inl rfl) (by decide)).trans (by rfl)

/-- C9: every bucket entry built by `S3BucketConfig.__init__` stores a
normalized key prefix: no leading slash, no trailing slash, and a missing
or empty configured prefix is stored as the empty string. -/
theorem bucket_pfx_normalized (c : BucketCfg) :
    (mkBucketObj c).2.head? ≠ some '/'
    ∧ (mkBucketObj c).2.getLast? ≠ some '/'
    ∧ ((c.pfxOpt = none ∨ c.pfxOpt = some []) → (mkBucketObj c).2 = []) := by
  refine ⟨(normalizePfx_head_last c.pfxOpt).1, (normalizePfx_head_last c.pfxOpt).2, ?_⟩
  rintro (h | h) <;> simp [mkBucketObj, h, normalizePfx]

/-- C9 witness: a bucket entry with no configured prefix stores the empty
prefix, which has no leading slash. -/
theorem bucket_pfx_normalized_witness :
    (mkBucketObj ⟨"b", none⟩).2.head? ≠ some '/' ∧ (mkBucketObj ⟨"b", none⟩).2 = [] :=
  ⟨(bucket_pfx_normalized ⟨"b", none⟩).1,
   (bucket_pfx_normalized ⟨"b", none⟩).2.2 (Or.inl rfl)⟩

/-- C10: for an existing single file, `upload_path_to_s3` keys the object by
the file's base name alone under the normalized prefix, so two input paths
with the same base name (whatever their directory components) produce the
same object key. -/
theorem upload_file_uses_basename (sep : Char) (pfx : Option (List Char))
    (p1 p2 : List (List Char)) (h : p1.getLastD [] = p2.getLastD []) :
    upload_path_to_s3 sep pfx (.file p1)
        = .ok ([makeS3Key (normalizePfx pfx) (p1.getLastD [])], 1)
    ∧ upload_path_to_s3 sep pfx (.file p1) = upload_path_to_s3 sep pfx (.file p2) := by
  constructor
  · rfl
  · simp only [upload_path_to_s3]
    rw [show p1.getLastD [] = p2.getLastD [] from h]

/-- C10 witness: the distinct paths `d1/f` and `d2/f` collide on the key `f`. -/
theorem upload_file_uses_basename_witness :
    upload_path_to_s3 '/' none (.file [['d', '1'], ['f']]) = .ok ([['f']], 1)
    ∧ upload_path_to_s3 '/' none (.file [['d', '1'], ['f']])
        = upload_path_to_s3 '/' none (.file [['d', '2'], ['f']]) :=
  ⟨((upload_file_uses_basename '/' none [['d', '1'], ['f']] [['d', '2'], ['f']] rfl).1).trans
      (by rfl),
   (upload_file_uses_basename '/' none [['d', '1'], ['f']] [['d', '2'], ['f']] rfl).2⟩

/-! ## `bin/make_quilt_from_s3.py` -/

/-- External calls made by the packaging tool. -/
inductive PkgEff where
  | setEntry
  | setMeta
  | configRegistry
  | push
  deriving DecidableEq

/-- The source locator for a key: `f"s3://{bucket}/{key}"`. -/
def s3Url (bucket key : String) : String :=
  "s3://" ++ bucket ++ "/" ++ key

/-- The package manifest built by the entry loop of `make_package_from_keys`:
each key becomes a `p.set(logical_path, s3_url)` with the key itself as
logical path (`quilt3.Package.set` keys the manifest by logical path). -/
def buildManifest (bucket : String) (keys : List String) : List (String × String) :=
  keys.foldl (fun m k => aset m k (s3Url bucket k)) []

/-- Embeds `make_package_from_keys` of `bin/make_quilt_from_s3.py`.  Returns
the result dictionary paired with the manifest pushed, plus the trace of
registry/package calls; an empty key list raises `ValueError` before any
call is made.  `ts` stands for the UTC timestamp string appended to the
package base name. -/
def make_package_from_keys (bucket : String) (keys : List String)
    (ns pkgBase ts : String) (registry message : Option String) :
    Except String (Dict × List (String × String)) × List PkgEff :=
  if keys = [] then
    (.error "No S3 keys provided to create a package.", [])
  else
    let fullName := ns ++ "/" ++ pkgBase ++ "-" ++ ts
    let manifest := buildManifest bucket keys
    let pushMessage := message.getD
      ("Created from existing S3 objects (" ++ toString keys.length ++ " entries)")
    let cfgEffs : List PkgEff :=
      match registry with
      | some _ => [PkgEff.configRegistry]
      | none => []
    let _ := pushMessage
    (.ok ([("package", JVal.str fullName)], manifest),
     keys.map (fun _ => PkgEff.setEntry) ++ [PkgEff.setMeta] ++ cfgEffs ++ [PkgEff.push])

/-- Embeds the key-count guard of `main` in `bin/make_quilt_from_s3.py`:
an empty discovered key list exits with code 2 before
`make_package_from_keys` is called; otherwise the package is built
(`ValueError` maps to exit 3, success to exit 0). -/
def mainMake (bucket : String) (keys : List String) (ns pkgBase ts : String)
    (registry message : Option String) : Nat × List PkgEff :=
  if keys = [] then
    (2, [])
  else
    match make_package_from_keys bucket keys ns pkgBase ts registry message with
    | (.ok _, effs) => (0, effs)
    | (.error _, effs) => (3, effs)

theorem aget_buildManifest_foldl (bucket : String) (keys : List String)
    (m : List (String × String)) (k : String) :
    aget (keys.foldl (fun m k => aset m k (s3Url bucket k)) m) k
      = if k ∈ keys then some (s3Url bucket k) else aget m k := by
  induction keys generalizing m with
  | nil => simp
  | cons k' t ih =>
    rw [List.foldl_cons, ih]
    by_cases ht : k ∈ t
    · simp [ht]
    · by_cases hk : k = k'
      · subst hk
        simp [ht, aget_aset_self]
      · simp [ht, hk, aget_aset_ne m k' k _ (fun he => hk he.symm)]

theorem nodup_buildManifest_foldl (bucket : String) (keys : List String)
    (m : List (String × String)) (h : (keysOf m).Nodup) :
    (keysOf (keys.foldl (fun m k => aset m k (s3Url bucket k)) m)).Nodup := by
  induction keys generalizing m with
  | nil => exact h
  | cons k' t ih =>
    rw [List.foldl_cons]
    exact ih _ (nodup_keysOf_aset m k' _ h)

theorem mem_buildManifest_foldl (bucket : String) (keys : List String)
    (m : List (String × String)) (e : String × String)
    (h : e ∈ keys.foldl (fun m k => aset m k (s3Url bucket k)) m) :
    e ∈ m ∨ (e.1 ∈ keys ∧ e.2 = s3Url bucket e.1) := by
  induction keys generalizing m with
  | nil => exact Or.inl h
  | cons k' t ih =>
    rw [List.foldl_cons] at h
    rcases ih _ h with h1 | h1
    · rcases mem_aset m k' _ e h1 with h2 | h2
      · right
        rw [h2]
        exact ⟨by simp, rfl⟩
      · exact Or.inl h2
    · right
      exact ⟨by simp [h1.1], h1.2⟩

/-- C1: for every non-empty key list, `make_package_from_keys` succeeds and
pushes a manifest with exactly one entry per input key — the keys of the
manifest are duplicate-free, every input key is mapped, its logical path is
the key itself, and its source locator is `s3://<bucket>/<key>`; no entry
comes from anywhere else. -/
theorem make_package_one_entry_per_key (bucket ns pkgBase ts : String)
    (registry message : Option String) (keys : List String) (hne : keys ≠ []) :
    (make_package_from_keys bucket keys ns pkgBase ts registry message).1
      = .ok ([("package", JVal.str (ns ++ "/" ++ pkgBase ++ "-" ++ ts))],
             buildManifest bucket keys)
    ∧ (∀ k ∈ keys, aget (buildManifest bucket keys) k = some (s3Url bucket k))
    ∧ (keysOf (buildManifest bucket keys)).Nodup
    ∧ (∀ e ∈ buildManifest bucket keys, e.1 ∈ keys ∧ e.2 = s3Url bucket e.1) := by
  refine ⟨by simp [make_package_from_keys, hne], fun k hk => ?_, ?_, fun e he => ?_⟩
  · rw [buildManifest, aget_buildManifest_foldl, if_pos hk]
  · exact nodup_buildManifest_foldl bucket keys [] (by simp [keysOf])
  · rcases mem_buildManifest_foldl bucket keys [] e he with h | h
    · simp at h
    · exact h

/-- C1 witness: a two-key package maps each key to its `s3://` locator. -/
theorem make_package_one_entry_per_key_witness :
    (make_package_from_keys "bkt" ["a", "b"] "ns" "from-s3" "t0" none none).1
      = .ok ([("package", JVal.str ("ns" ++ "/" ++ "from-s3" ++ "-" ++ "t0"))],
             buildManifest "bkt" ["a", "b"])
    ∧ aget (buildManifest "bkt" ["a", "b"]) "a" = some (s3Url "bkt" "a") :=
  ⟨(make_package_one_entry_per_key "bkt" "ns" "from-s3" "t0" none none ["a", "b"]
      (by decide)).1,
   (make_package_one_entry_per_key "bkt" "ns" "from-s3" "t0" none none ["a", "b"]
      (by decide)).2.1 "a" (by decide)⟩

/-- C6: on the empty key list `make_package_from_keys` fails with the
`ValueError` message and issues no registry call at all (no entry set, no
push), and `main` exits with code 2 on an empty discovered key list without
reaching the registry. -/
theorem make_package_empty_keys_rejected (bucket ns pkgBase ts : String)
    (registry message : Option String) :
    make_package_from_keys bucket [] ns pkgBase ts registry message
        = (.error "No S3 keys provided to create a package.", [])
    ∧ mainMake bucket [] ns pkgBase ts registry message = (2, []) :=
  ⟨rfl, rfl⟩

/-! ## `bin/metadata_integrator.py`

Timestamps: `now_iso_z()` serializes the UTC clock reading at the instant of
the call.  Runs are modelled with two abstract clock readings, `t0` at the
instant `merge_meta` is entered and `tr` at the instant `now_iso_z()` is
evaluated inside it; the code guarantees only clock monotonicity `t0 ≤ tr`.
`isoZ` stands for the ISO-8601 serialization of a reading. -/

/-- Serialization of a clock reading, standing for the `now_iso_z()` string. -/
def isoZ (t : Nat) : String :=
  toString t ++ "Z"

/-- Python truthiness of a JSON value (`if x:`). -/
def pyTruthy : JVal → Bool
  | .null => false
  | .bool b => b
  | .num n => n != 0
  | .str s => !(s == "")
  | .arr xs => !xs.isEmpty
  | .obj o => !o.isEmpty

/-- Python `a or b` on JSON values. -/
def pyOr (a b : JVal) : JVal :=
  if pyTruthy a then a else b

/-- Python `payload.get(k)`: absent keys read as `None`. -/
def getJ (d : Dict) (k : String) : JVal :=
  (aget d k).getD .null

/-- Embeds `MetadataIntegrator.merge_meta` of `bin/metadata_integrator.py`
(its pure part; the package load that supplies `existing` is modelled in
`merge_meta_run`).  `now` is the string returned by `now_iso_z()` during the
call. -/
def merge_meta (existing : Dict) (benchling_meta smartsheet_meta : Option Dict)
    (now : String) : Dict :=
  let merged := existing
  let merged :=
    match benchling_meta with
    | some b => aset merged "benchling" (.obj b)
    | none => merged
  let merged :=
    match smartsheet_meta with
    | some s => aset merged "smartsheet" (.obj s)
    | none => merged
  let prov :=
    match aget merged "provenance" with
    | some (.obj o) => o
    | _ => []
  let sources : List JVal :=
    (match benchling_meta with
     | some b => if b.isEmpty then [] else [JVal.str "benchling"]
     | none => [])
    ++ (match smartsheet_meta with
        | some s => if s.isEmpty then [] else [JVal.str "smartsheet"]
        | none => [])
  let provEntry : Dict :=
    [("integrated_at", .str now), ("integrator", .str "metadata_integrator.py"),
     ("sources", .arr sources)]
  let prov := aupdate prov provEntry
  aset merged "provenance" (.obj prov)

/-- The `integrated_at` field of the `provenance` sub-mapping of a metadata
dictionary. -/
def integratedAt (d : Dict) : Option JVal :=
  match aget d "provenance" with
  | some (.obj p) => aget p "integrated_at"
  | _ => none

/-- Formalization of C2's timing clause as the claim states it: on every run
(start reading `t0`, `now_iso_z()` reading `tr`, monotonicity `t0 ≤ tr`),
`merge_meta` records `integrated_at` as the serialized reading `tr`, and
that reading is strictly later than the call's start. -/
def mergeStampsStrictlyLater (existing : Dict)
    (benchling_meta smartsheet_meta : Option Dict) (t0 tr : Nat) : Prop :=
  t0 ≤ tr →
    integratedAt (merge_meta existing benchling_meta smartsheet_meta (isoZ tr))
        = some (.str (isoZ tr))
    ∧ t0 < tr

/-- External calls made by the metadata integrator. -/
inductive Eff where
  | browse
  | setMeta
  | push
  deriving DecidableEq

/-- Embeds the load step of `MetadataIntegrator.merge_meta`: when
`self.pkg` is `None`, `load()` browses the package from the registry (a
network read) and the merge then reads the loaded metadata.  Returns the
package state after the call, the merged metadata, and the effect trace. -/
def merge_meta_run (registryMeta : Dict) (pkg0 : Option Dict)
    (benchling_meta smartsheet_meta : Option Dict) (now : String) :
    Option Dict × Dict × List Eff :=
  let loaded : Option Dict × List Eff :=
    match pkg0 with
    | none => (some registryMeta, [Eff.browse])
    | some m => (some m, [])
  let existing := loaded.1.getD []
  (loaded.1, merge_meta existing benchling_meta smartsheet_meta now, loaded.2)

/-- Embeds `MetadataIntegrator.attach_and_push` of
`bin/metadata_integrator.py`.  The merge (with its possible load) always
runs first; with `dry_run` the function returns the result dictionary with
the merged metadata and performs nothing further; otherwise it re-checks the
load, sets the metadata on the package and pushes it.  `pushHash` stands for
the hash returned by `push`. -/
def attach_and_push (package : String) (registryMeta : Dict) (pkg0 : Option Dict)
    (benchling_meta smartsheet_meta : Option Dict) (dryRun : Bool)
    (now pushHash : String) : Dict × List Eff :=
  let s1 := merge_meta_run registryMeta pkg0 benchling_meta smartsheet_meta now
  let pkg1 := s1.1
  let merged := s1.2.1
  let effs1 := s1.2.2
  if dryRun then
    ([("package", .str package), ("dry_run", .bool true), ("merged_meta", .obj merged)],
     effs1)
  else
    let s2 : Option Dict × List Eff :=
      match pkg1 with
      | none => (some registryMeta, [Eff.browse])
      | some m => (some m, [])
    ([("package", .str package), ("new_hash", .str pushHash),
      ("meta_keys", .arr ((merged.map Prod.fst).map JVal.str))],
     effs1 ++ s2.2 ++ [Eff.setMeta, Eff.push])

/-- An HTTP response as `requests` presents it: status code and JSON payload. -/
structure HttpResp where
  status : Nat
  payload : Dict

/-- The first candidate key among `customFields`, `custom_fields`,
`custom_fields_map` whose payload value is a mapping (the loop with `break`
in `get_entity`). -/
def firstObjCand (payload : Dict) : List String → Option (List (String × JVal))
  | [] => none
  | c :: cs =>
    match aget payload c with
    | some (.obj o) => some o
    | _ => firstObjCand payload cs

/-- The per-field unwrapping of `get_entity`: a mapping value containing a
`value` key is replaced by that inner value. -/
def unwrapValue (v : JVal) : JVal :=
  match v with
  | .obj o =>
    match aget o "value" with
    | some w => w
    | none => .obj o
  | _ => v

/-- The normalized `fields` mapping built by `get_entity`. -/
def extractFields (payload : Dict) : Dict :=
  match firstObjCand payload ["customFields", "custom_fields", "custom_fields_map"] with
  | some cf => cf.foldl (fun acc kv => aset acc kv.1 (unwrapValue kv.2)) []
  | none => []

/-- The `schema_id` read of `get_entity`: `(payload.get("schema") or {}).get("id")`
(a truthy non-mapping `schema` would fault in the source; modelled as null). -/
def schemaIdOf (payload : Dict) : JVal :=
  match pyOr (getJ payload "schema") (.obj []) with
  | .obj o => getJ o "id"
  | _ => .null

/-- Embeds `BenchlingClient.get_entity` of `bin/metadata_integrator.py` for a
received response: 404 yields the non-fatal not-found mapping, any other
error status (4xx/5xx, the `raise_for_status` range) raises, and a
successful status yields the normalized entity mapping. -/
def get_entity (entity_id : String) (resp : HttpResp) : Except String Dict :=
  if resp.status = 404 then
    .ok [("entity_id", .str entity_id), ("not_found", .bool true)]
  else if 400 ≤ resp.status ∧ resp.status < 600 then
    .error "HTTPError"
  else
    let payload := resp.payload
    .ok [("entity_id", pyOr (getJ payload "id") (.str entity_id)),
         ("name", getJ payload "name"),
         ("schema_id", schemaIdOf payload),
         ("fields", .obj (extractFields payload)),
         ("url", pyOr (getJ payload "webUrl") (getJ payload "web_url"))]

/-- A Smartsheet column as returned by the sheet fetch. -/
structure Column where
  id : Int
  title : String

/-- A Smartsheet cell: its column id and its optional value. -/
structure Cell where
  columnId : Int
  value : Option JVal

/-- A Smartsheet row. -/
structure Row where
  id : Int
  cells : List Cell

/-- A Smartsheet sheet: columns and rows. -/
structure Sheet where
  columns : List Column
  rows : List Row

/-- The `title_to_id` dict comprehension: on duplicate titles the last
column wins, hence the lookup scans the reversed column list. -/
def titleToId (cols : List Column) (title : String) : Option Int :=
  (cols.reverse.find? (fun c => c.title = title)).map (fun c => c.id)

/-- The `id_to_title` dict comprehension (last column wins likewise). -/
def idToTitle (cols : List Column) (cid : Int) : Option String :=
  (cols.reverse.find? (fun c => c.id = cid)).map (fun c => c.title)

/-- Python `cell.get("value") == run_id` for the string `run_id` taken from
the command line: only an equal string value compares true. -/
def valueIsStr (v : Option JVal) (s : String) : Bool :=
  match v with
  | some (.str t) => t = s
  | _ => false

/-- The row mapping built for a matching row: column title (or stringified
column id) to cell value, plus `_rowId`. -/
def mapRow (cols : List Column) (row : Row) : Dict :=
  let mapped := row.cells.foldl
    (fun acc c => aset acc ((idToTitle cols c.columnId).getD (toString c.columnId))
      (c.value.getD .null)) []
  aset mapped "_rowId" (.num row.id)

/-- Result of the Smartsheet row queries. -/
structure SmResult where
  sheet_id : String
  row : Option Dict
  err : Option String

/-- Embeds `SmartsheetClient.get_row_by_run_column` of
`bin/metadata_integrator.py`: resolve the run column title, then scan the
rows for the first cell of that column equal to `run_id`; a missing column
reports `column_not_found`, no matching row reports `row = None`. -/
def get_row_by_run_column (sheet_id : String) (sheet : Sheet)
    (run_column run_id : String) : SmResult :=
  match titleToId sheet.columns run_column with
  | none => { sheet_id := sheet_id, row := none, err := some "column_not_found" }
  | some cid =>
    match sheet.rows.find?
        (fun r => r.cells.any (fun c => c.columnId = cid && valueIsStr c.value run_id)) with
    | some r =>
      { sheet_id := sheet_id, row := some (mapRow sheet.columns r), err := none }
    | none => { sheet_id := sheet_id, row := none, err := none }

/-- The dictionary form of a Smartsheet result, as main hands it to the
integrator. -/
def smResultToDict (r : SmResult) : Dict :=
  [("sheet_id", .str r.sheet_id),
   ("row", match r.row with | some m => .obj m | none => .null)]
  ++ (match r.err with | some e => [("error", .str e)] | none => [])

/-- Embeds the run-column branch of `main` in `bin/metadata_integrator.py`
(token already validated): scan the sheet; when no row matches, exit with
code 3 before touching the integrator; otherwise attach and push (exit 0).
Returns the exit code and the integrator's effect trace. -/
def mainScan (sheet_id : String) (sheet : Sheet) (run_column run_id : String)
    (package : String) (registryMeta : Dict) (pkg0 : Option Dict) (dryRun : Bool)
    (now pushHash : String) : Nat × List Eff :=
  let sm := get_row_by_run_column sheet_id sheet run_column run_id
  match sm.row with
  | none => (3, [])
  | some _ =>
    (0, (attach_and_push package registryMeta pkg0 none (some (smResultToDict sm))
          dryRun now pushHash).2)

theorem aget_cons_self {α : Type} (k : String) (v : α) (t : List (String × α)) :
    aget ((k, v) :: t) k = some v := by
  simp [aget]

theorem aget_cons_ne {α : Type} (k' k : String) (v : α) (t : List (String × α))
    (h : k' ≠ k) : aget ((k', v) :: t) k = aget t k := by
  simp [aget, h]

/-- C2 counterexample: the claim demands `integrated_at` strictly later than
the call's start, but a run whose start reading and `now_iso_z()` reading
coincide (`t0 = tr = 0`, allowed by clock monotonicity, which is all the
code guarantees) records exactly the start reading. -/
theorem merge_meta_not_strictly_later :
    ¬ mergeStampsStrictlyLater [] none none 0 0 := by
  intro h
  exact Nat.lt_irrefl 0 (h (Nat.le_refl 0)).2

/-- C2 (amended): `merge_meta` preserves every pre-existing key other than
`benchling`, `smartsheet` and `provenance` with its original value, and sets
`provenance.integrated_at` to the reading taken during the call, which is at
or after (not necessarily strictly after) the call's start. -/
theorem merge_meta_preserves_and_stamps (existing : Dict)
    (b s : Option Dict) (t0 tr : Nat) (hmono : t0 ≤ tr) :
    (∀ k, k ≠ "benchling" → k ≠ "smartsheet" → k ≠ "provenance" →
        aget (merge_meta existing b s (isoZ tr)) k = aget existing k)
    ∧ integratedAt (merge_meta existing b s (isoZ tr)) = some (.str (isoZ tr))
    ∧ t0 ≤ tr := by
  refine ⟨fun k hb hs hp => ?_, ?_, hmono⟩
  · cases b with
    | none =>
      cases s with
      | none =>
        simp only [merge_meta]
        rw [aget_aset_ne _ _ _ _ (Ne.symm hp)]
      | some sv =>
        simp only [merge_meta]
        rw [aget_aset_ne _ _ _ _ (Ne.symm hp), aget_aset_ne _ _ _ _ (Ne.symm hs)]
    | some bv =>
      cases s with
      | none =>
        simp only [merge_meta]
        rw [aget_aset_ne _ _ _ _ (Ne.symm hp), aget_aset_ne _ _ _ _ (Ne.symm hb)]
      | some sv =>
        simp only [merge_meta]
        rw [aget_aset_ne _ _ _ _ (Ne.symm hp), aget_aset_ne _ _ _ _ (Ne.symm hs),
          aget_aset_ne _ _ _ _ (Ne.symm hb)]
  · cases b <;> cases s <;>
      · simp only [merge_meta, integratedAt, aupdate, List.foldl_cons, List.foldl_nil,
          aget_aset_self]
        rw [aget_aset_ne _ _ _ _ (by decide), aget_aset_ne _ _ _ _ (by decide),
          aget_aset_self]

/-- C2 witness: a concrete run over `{x: 1}` with readings 0 and 1 keeps `x`
and stamps `integrated_at` with the reading taken during the call. -/
theorem merge_meta_preserves_and_stamps_witness :
    aget (merge_meta [("x", .num 1)] none none (isoZ 1)) "x" = some (.num 1)
    ∧ integratedAt (merge_meta [("x", .num 1)] none none (isoZ 1))
        = some (.str (isoZ 1)) :=
  ⟨((merge_meta_preserves_and_stamps [("x", .num 1)] none none 0 1 (by decide)).1
      "x" (by decide) (by decide) (by decide)).trans (by rfl),
   (merge_meta_preserves_and_stamps [("x", .num 1)] none none 0 1 (by decide)).2.1⟩

/-- C3: with `dry_run` set, `attach_and_push` never issues the push call,
and its result dictionary carries the merged metadata under `merged_meta`. -/
theorem attach_and_push_dry_run_no_push (package : String) (registryMeta : Dict)
    (pkg0 : Option Dict) (b s : Option Dict) (now pushHash : String) :
    Eff.push ∉ (attach_and_push package registryMeta pkg0 b s true now pushHash).2
    ∧ aget (attach_and_push package registryMeta pkg0 b s true now pushHash).1 "merged_meta"
        = some (.obj (merge_meta (pkg0.getD registryMeta) b s now)) := by
  cases pkg0 with
  | none =>
    constructor
    · show Eff.push ∉ [Eff.browse]
      decide
    · show aget [("package", JVal.str package), ("dry_run", JVal.bool true),
        ("merged_meta", JVal.obj (merge_meta registryMeta b s now))] "merged_meta" = _
      rw [aget_cons_ne _ _ _ _ (by decide), aget_cons_ne _ _ _ _ (by decide),
        aget_cons_self]
      rfl
  | some m =>
    constructor
    · show Eff.push ∉ ([] : List Eff)
      decide
    · show aget [("package", JVal.str package), ("dry_run", JVal.bool true),
        ("merged_meta", JVal.obj (merge_meta m b s now))] "merged_meta" = _
      rw [aget_cons_ne _ _ _ _ (by decide), aget_cons_ne _ _ _ _ (by decide),
        aget_cons_self]
      rfl

/-- C4 counterexample: with `dry_run` and a not-yet-loaded package, the
merge's load step browses the registry — a network call made before the
dry-run check, refuting "no network call before returning". -/
theorem attach_and_push_dry_run_still_browses :
    (attach_and_push "p" [] none none none true (isoZ 0) "h").2 = [Eff.browse]
    ∧ Eff.browse ∈ (attach_and_push "p" [] none none none true (isoZ 0) "h").2 := by
  constructor <;> decide

/-- C4 (amended): with `dry_run` set, `attach_and_push` performs no mutation
of the package and no publish — the dry-run check short-circuits before
`set_meta` and `push`; a read-only registry browse may still happen first
when the package has not been loaded yet. -/
theorem attach_and_push_dry_run_no_mutation (package : String) (registryMeta : Dict)
    (pkg0 : Option Dict) (b s : Option Dict) (now pushHash : String) :
    Eff.setMeta ∉ (attach_and_push package registryMeta pkg0 b s true now pushHash).2
    ∧ Eff.push ∉ (attach_and_push package registryMeta pkg0 b s true now pushHash).2 := by
  cases pkg0 with
  | none =>
    constructor
    · show Eff.setMeta ∉ [Eff.browse]
      decide
    · show Eff.push ∉ [Eff.browse]
      decide
  | some m =>
    constructor
    · show Eff.setMeta ∉ ([] : List Eff)
      decide
    · show Eff.push ∉ ([] : List Eff)
      decide

/-- C7: when no row's cell in the requested run column equals the requested
run id, the scan reports no match and `main` exits with code 3 with an empty
integrator effect trace — no metadata set, nothing pushed. -/
theorem mainScan_no_match_exits_3 (sheet_id : String) (sheet : Sheet)
    (run_column run_id package : String) (registryMeta : Dict) (pkg0 : Option Dict)
    (dryRun : Bool) (now pushHash : String)
    (h : ∀ cid, titleToId sheet.columns run_column = some cid →
        ∀ r ∈ sheet.rows, ∀ c ∈ r.cells,
          c.columnId = cid → valueIsStr c.value run_id = false) :
    mainScan sheet_id sheet run_column run_id package registryMeta pkg0 dryRun now pushHash
      = (3, []) := by
  cases hcol : titleToId sheet.columns run_column with
  | none =>
    simp [mainScan, get_row_by_run_column, hcol]
  | some cid =>
    have hfind : sheet.rows.find?
        (fun r => r.cells.any (fun c => c.columnId = cid && valueIsStr c.value run_id))
          = none := by
      rw [List.find?_eq_none]
      intro r hr
      simp only [List.any_eq_true, Bool.and_eq_true, decide_eq_true_eq, not_exists]
      rintro c ⟨hc, hcid, hval⟩
      rw [h cid hcol r hr c hc hcid] at hval
      exact Bool.false_ne_true hval
    simp [mainScan, get_row_by_run_column, hcol, hfind]

/-- C7 witness: a sheet without the requested column (vacuously no matching
cell) makes the scan branch of main exit 3 with no integrator calls. -/
theorem mainScan_no_match_exits_3_witness :
    mainScan "s1" ⟨[], []⟩ "Run ID" "R0001" "pkg" [] none true (isoZ 0) "h" = (3, []) :=
  mainScan_no_match_exits_3 "s1" ⟨[], []⟩ "Run ID" "R0001" "pkg" [] none true (isoZ 0) "h"
    (fun cid hc => absurd hc (by simp [titleToId]))

/-- C8: `get_entity` turns a 404 response into the non-fatal mapping
`{entity_id, not_found: true}` without raising, and raises on every other
error status of the `raise_for_status` range (4xx/5xx). -/
theorem get_entity_404_and_errors (entity_id : String) (resp : HttpResp) :
    (resp.status = 404 →
      get_entity entity_id resp
        = .ok [("entity_id", .str entity_id), ("not_found", .bool true)])
    ∧ (resp.status ≠ 404 → 400 ≤ resp.status → resp.status < 600 →
      get_entity entity_id resp = .error "HTTPError") := by
  constructor
  · intro h
    simp [get_entity, h]
  · intro h h4 h6
    simp only [get_entity]
    rw [if_neg h, if_pos (show 400 ≤ resp.status ∧ resp.status < 600 from ⟨h4, h6⟩)]

/-- C8 witness: a 404 response yields the not-found mapping; a 500 response
raises. -/
theorem get_entity_404_and_errors_witness :
    get_entity "e1" ⟨404, []⟩ = .ok [("entity_id", .str "e1"), ("not_found", .bool true)]
    ∧ get_entity "e1" ⟨500, []⟩ = .error "HTTPError" :=
  ⟨(get_entity_404_and_errors "e1" ⟨404, []⟩).1 rfl,
   (get_entity_404_and_errors "e1" ⟨500, []⟩).2 (by decide) (by decide) (by decide)⟩

end Genexomics
